import Mathlib

/-!
# Verification of the prism linear-algebra kernel

Shallow embedding of the `prism` repository's math kernel
(`src/math/vector.rs`, `src/math/matrix.rs`, `src/math/ray.rs`) and of the
SDF demo in `src/main.rs`, together with proofs settling the frozen claims.

Modelling conventions:
* The Rust code is generic over a scalar `Component` (instantiated at `f32`
  and `f64`).  We embed scalars as an arbitrary `Field` and instantiate at
  `ℚ` (exact, computable idealisation of float arithmetic) or at `ℝ` where
  square roots or tangents are involved.
* A `Vector<T, COUNT>` is embedded as `Fin n → α`; a square
  `Matrix<T, N, N>` as `Fin n → Fin n → α` (row index first, as in the
  Rust row-major `data[row][col]`).
* Rust panics are embedded as `Except.error` (for `Vector::cross`) or as
  `Option`-valued computations returning `none` (for the dynamically
  indexed matrix component loops, where an out-of-bounds index aborts).
-/

namespace Prism

/-! ## Vectors (`src/math/vector.rs`)

`Vector<T, COUNT>` holds `data: [T; COUNT]`; we embed it as `Fin n → α`.
-/

/-- `vector_op!(Add, add, +=)`: componentwise vector + vector. -/
def vadd {α : Type} [Field α] {n : ℕ} (a b : Fin n → α) : Fin n → α :=
  fun i => a i + b i

/-- `vector_op!(Sub, sub, -=)`: componentwise vector - vector. -/
def vsub {α : Type} [Field α] {n : ℕ} (a b : Fin n → α) : Fin n → α :=
  fun i => a i - b i

/-- `vector_op!(Mul, mul, *=)`: componentwise vector * vector. -/
def vmul {α : Type} [Field α] {n : ℕ} (a b : Fin n → α) : Fin n → α :=
  fun i => a i * b i

/-- `component_op!(Mul, mul, *=)` on `Vector`: vector * scalar broadcast. -/
def vsmul {α : Type} [Field α] {n : ℕ} (a : Fin n → α) (s : α) : Fin n → α :=
  fun i => a i * s

/-- Componentwise vector negation (`Neg for Vector`). -/
def vneg {α : Type} [Field α] {n : ℕ} (a : Fin n → α) : Fin n → α :=
  fun i => -(a i)

/-- `Vector::dot`: starts from `T::default()` (zero) and accumulates
`self[c] * rhs[c]` over all components. -/
def vdot {α : Type} [Field α] {n : ℕ} (a b : Fin n → α) : α :=
  ∑ i, a i * b i

/-- `Vector::from_single(d)`: broadcast of one value to all components. -/
def from_single {α : Type} [Field α] (n : ℕ) (d : α) : Fin n → α :=
  fun _ => d

/-- `Vector::cross` for `COUNT == 3`: the branch of the Rust `cross` that
computes `p[0] = self[1]*rhs[2] - self[2]*rhs[1]`,
`p[1] = self[2]*rhs[0] - self[0]*rhs[2]`,
`p[2] = self[0]*rhs[1] - self[1]*rhs[0]`. -/
def cross3 {α : Type} [Field α] (a b : Fin 3 → α) : Fin 3 → α :=
  ![a 1 * b 2 - a 2 * b 1,
    a 2 * b 0 - a 0 * b 2,
    a 0 * b 1 - a 1 * b 0]

/-- The panic message of `Vector::cross` for a non-3-dimensional vector,
with the offending component count interpolated as in the Rust source. -/
def crossPanicMsg (n : ℕ) : String :=
  "Cross products are only supported for 3 dimensional vectors! (Your vector has "
    ++ toString n ++ " components!)"

/-- `Vector::cross` (`src/math/vector.rs` lines 70-84): if `COUNT == 3` the
3-D formula is returned, otherwise the call panics (embedded as
`Except.error` carrying the panic message). -/
def cross {n : ℕ} (a b : Fin n → ℚ) : Except String (Fin n → ℚ) :=
  if h : n = 3 then
    .ok (fun i => cross3 (fun j => a (Fin.cast h.symm j)) (fun j => b (Fin.cast h.symm j))
          (Fin.cast h i))
  else
    .error (crossPanicMsg n)

/-- `Vector4::new(x, y, z, w)` for `Vector<f32, 4>`: `from_array([x, y, z, w])`. -/
def vector4_new {α : Type} [Field α] (x y z w : α) : Fin 4 → α :=
  ![x, y, z, w]

/-- `HiVector4::new(x, y, z, w)` for `Vector<f64, 4>`: the source reads
`from_array([x, y, w, z])`. -/
def hiVector4_new {α : Type} [Field α] (x y z w : α) : Fin 4 → α :=
  ![x, y, w, z]

/-! ## Ray–triangle intersection (`src/math/ray.rs`)

`Ray3D` is backed by `Vector<f32, 3>`; we embed the scalars as `ℚ`.
The intersection routine runs in the `Except String` monad so that a panic
of the two `cross` calls it makes would surface as `.error`; the result
payload `Option (ℚ × ℚ × ℚ)` is the Rust `Option<(f32, f32, f32)>`.
-/

/-- `EPSILON : f32 = 0.0000001` from `src/math/ray.rs`. -/
def EPSILON : ℚ := 1 / 10000000

/-- `Ray3D::intersect_triangle` (`src/math/ray.rs` lines 22-56), translated
branch by branch.  `origin`/`direction` are the ray fields; the triangle is
the tuple `(p1, p2, p3)`. -/
def intersect_triangle (origin direction : Fin 3 → ℚ)
    (tri : (Fin 3 → ℚ) × (Fin 3 → ℚ) × (Fin 3 → ℚ)) :
    Except String (Option (ℚ × ℚ × ℚ)) := do
  let p1 := tri.1
  let p2 := tri.2.1
  let p3 := tri.2.2
  let e1 := vsub p2 p1
  let e2 := vsub p3 p1
  let h ← cross direction e2
  let a := vdot e1 h
  -- Is parallel?
  if a > -EPSILON ∧ a < EPSILON then
    return none
  let f := 1 / a
  let s := vsub origin p1
  let u := f * vdot s h
  if u < 0 ∨ u > 1 then
    return none
  let q ← cross s e1
  let v := f * vdot direction q
  if v < 0 ∨ u + v > 1 then
    return none
  let t := f * vdot e2 q
  if t > EPSILON then
    return some (u, v, t)
  return none

/-- The result described by the specification of Möller–Trumbore
(spec §4.4 / claim C1): with `e1 = p2−p1`, `e2 = p3−p1`,
`h = direction×e2`, `a = e1·h`, `f = 1/a`, `s = origin−p1`,
`q = s×e1`, `u = f·(s·h)`, `v = f·(direction·q)`, `t = f·(e2·q)`,
the result is absent exactly when `|a| < ε`, or `u ∉ [0,1]`, or `v < 0` or
`u+v > 1`, or `t ≤ ε`, and otherwise carries `(u, v, t)`. -/
def intersect_triangle_spec (origin direction : Fin 3 → ℚ)
    (tri : (Fin 3 → ℚ) × (Fin 3 → ℚ) × (Fin 3 → ℚ)) : Option (ℚ × ℚ × ℚ) :=
  let p1 := tri.1
  let p2 := tri.2.1
  let p3 := tri.2.2
  let e1 := vsub p2 p1
  let e2 := vsub p3 p1
  let h := cross3 direction e2
  let a := vdot e1 h
  let f := 1 / a
  let s := vsub origin p1
  let q := cross3 s e1
  let u := f * vdot s h
  let v := f * vdot direction q
  let t := f * vdot e2 q
  if |a| < EPSILON ∨ (u < 0 ∨ u > 1) ∨ (v < 0 ∨ u + v > 1) ∨ t ≤ EPSILON then
    none
  else
    some (u, v, t)

/-! ## Matrices (`src/math/matrix.rs`)

`Matrix<T, W, H>` holds `data: [[T; WIDTH]; HEIGHT]` (row-major).  Square
matrices are embedded as `Fin n → Fin n → α`, row index first.  The
dynamically indexed component loops (which can address out of range) are
embedded separately over `List (List α)` below.
-/

/-- A square `Matrix<T, N, N>`, row index first. -/
abbrev MatN (n : ℕ) (α : Type) := Fin n → Fin n → α

/-- `Matrix::identity()`: zero matrix with `get_one()` on the diagonal
(the Rust loop writes `array[c][c] = T::get_one()` for every in-range `c`). -/
def midentity {α : Type} [Field α] (n : ℕ) : MatN n α :=
  fun y x => if y = x then 1 else 0

/-- `Mul<Self> for Matrix` (square case): entry `(y, x)` is the sum of the
componentwise product of row `y` of `self` with column `x` of `rhs`. -/
def mmul {α : Type} [Field α] {n : ℕ} (a b : MatN n α) : MatN n α :=
  fun y x => ∑ k, a y k * b k x

/-- `component_op!(Mul, mul, *=)` on a square matrix: every cell is scaled
(for `W = H` the transposed loop indices still touch each cell once). -/
def msmul {α : Type} [Field α] {n : ℕ} (m : MatN n α) (s : α) : MatN n α :=
  fun y x => m y x * s

/-- `Matrix<T, 2, 2>::determinant`. -/
def det2 {α : Type} [Field α] (m : MatN 2 α) : α :=
  m 0 0 * m 1 1 - m 0 1 * m 1 0

/-- `Matrix<T, 2, 2>::inverse`: adjugate entries, then `i * d` with
`d = one / determinant`. -/
def inverse2 {α : Type} [Field α] (m : MatN 2 α) : MatN 2 α :=
  let d : α := 1 / det2 m
  msmul ![![m 1 1, -(m 0 1)], ![-(m 1 0), m 0 0]] d

/-- `Matrix<T, 3, 3>::determinant`. -/
def det3 {α : Type} [Field α] (m : MatN 3 α) : α :=
  m 0 0 * (m 1 1 * m 2 2 - m 2 1 * m 1 2) -
  m 1 0 * (m 0 1 * m 2 2 - m 2 1 * m 0 2) +
  m 2 0 * (m 0 1 * m 1 2 - m 1 1 * m 0 2)

/-- `Matrix<T, 3, 3>::inverse`: each cofactor entry multiplied by
`d = one / determinant`, laid out exactly as the Rust assignments
`i[row][col] = ...` (row index first). -/
def inverse3 {α : Type} [Field α] (m : MatN 3 α) : MatN 3 α :=
  let d : α := 1 / det3 m
  ![![ (m 1 1 * m 2 2 - m 2 1 * m 1 2) * d,
       -(m 0 1 * m 2 2 - m 2 1 * m 0 2) * d,
       (m 0 1 * m 1 2 - m 1 1 * m 0 2) * d ],
    ![ -(m 1 0 * m 2 2 - m 2 0 * m 1 2) * d,
       (m 0 0 * m 2 2 - m 2 0 * m 0 2) * d,
       -(m 0 0 * m 1 2 - m 1 0 * m 0 2) * d ],
    ![ (m 1 0 * m 2 1 - m 2 0 * m 1 1) * d,
       -(m 0 0 * m 2 1 - m 2 0 * m 0 1) * d,
       (m 0 0 * m 1 1 - m 1 0 * m 0 1) * d ]]

/-- The unscaled matrix `i` built inside `Matrix<T, 4, 4>::inverse`
(`src/math/matrix.rs` lines 257-304): GLM-style cofactor construction from
`coef..`/`fac..`/`vec..` vectors, with the alternating sign rows applied.
`Vector::<T, 4>::new` is taken in plain argument order `[x, y, z, w]`. -/
def inv4_core {α : Type} [Field α] (m : MatN 4 α) : MatN 4 α :=
  let coef00 := m 2 2 * m 3 3 - m 3 2 * m 2 3
  let coef02 := m 1 2 * m 3 3 - m 3 2 * m 1 3
  let coef03 := m 1 2 * m 2 3 - m 2 2 * m 1 3
  let coef04 := m 2 1 * m 3 3 - m 3 1 * m 2 3
  let coef06 := m 1 1 * m 3 3 - m 3 1 * m 1 3
  let coef07 := m 1 1 * m 2 3 - m 2 1 * m 1 3
  let coef08 := m 2 1 * m 3 2 - m 3 1 * m 2 2
  let coef10 := m 1 1 * m 3 2 - m 3 1 * m 1 2
  let coef11 := m 1 1 * m 2 2 - m 2 1 * m 1 2
  let coef12 := m 2 0 * m 3 3 - m 3 0 * m 2 3
  let coef14 := m 1 0 * m 3 3 - m 3 0 * m 1 3
  let coef15 := m 1 0 * m 2 3 - m 2 0 * m 1 3
  let coef16 := m 2 0 * m 3 2 - m 3 0 * m 2 2
  let coef18 := m 1 0 * m 3 2 - m 3 0 * m 1 2
  let coef19 := m 1 0 * m 2 2 - m 2 0 * m 1 2
  let coef20 := m 2 0 * m 3 1 - m 3 0 * m 2 1
  let coef22 := m 1 0 * m 3 1 - m 3 0 * m 1 1
  let coef23 := m 1 0 * m 2 1 - m 2 0 * m 1 1
  let fac0 : Fin 4 → α := ![coef00, coef00, coef02, coef03]
  let fac1 : Fin 4 → α := ![coef04, coef04, coef06, coef07]
  let fac2 : Fin 4 → α := ![coef08, coef08, coef10, coef11]
  let fac3 : Fin 4 → α := ![coef12, coef12, coef14, coef15]
  let fac4 : Fin 4 → α := ![coef16, coef16, coef18, coef19]
  let fac5 : Fin 4 → α := ![coef20, coef20, coef22, coef23]
  let vec0 : Fin 4 → α := ![m 1 0, m 0 0, m 0 0, m 0 0]
  let vec1 : Fin 4 → α := ![m 1 1, m 0 1, m 0 1, m 0 1]
  let vec2 : Fin 4 → α := ![m 1 2, m 0 2, m 0 2, m 0 2]
  let vec3 : Fin 4 → α := ![m 1 3, m 0 3, m 0 3, m 0 3]
  let inv0 := vadd (vsub (vmul vec1 fac0) (vmul vec2 fac1)) (vmul vec3 fac2)
  let inv1 := vadd (vsub (vmul vec0 fac0) (vmul vec2 fac3)) (vmul vec3 fac4)
  let inv2 := vadd (vsub (vmul vec0 fac1) (vmul vec1 fac3)) (vmul vec3 fac5)
  let inv3 := vadd (vsub (vmul vec0 fac2) (vmul vec1 fac4)) (vmul vec2 fac5)
  let sign_a : Fin 4 → α := ![1, -1, 1, -1]
  let sign_b := vneg sign_a
  ![vmul inv0 sign_a, vmul inv1 sign_b, vmul inv2 sign_a, vmul inv3 sign_b]

/-- The normalisation scalar `dot1` of `Matrix<T, 4, 4>::inverse`: the
componentwise product of row 0 of `self` with column 0 of the unscaled
inverse, summed as `(dot0[0] + dot0[1]) + (dot0[2] + dot0[3])`. -/
def inv4_dot1 {α : Type} [Field α] (m : MatN 4 α) : α :=
  let i := inv4_core m
  let r0 : Fin 4 → α := ![i 0 0, i 1 0, i 2 0, i 3 0]
  let dot0 := vmul (fun x => m 0 x) r0
  (dot0 0 + dot0 1) + (dot0 2 + dot0 3)

/-- `Matrix<T, 4, 4>::inverse`: the unscaled matrix times `d = one / dot1`. -/
def inverse4 {α : Type} [Field α] (m : MatN 4 α) : MatN 4 α :=
  msmul (inv4_core m) (1 / inv4_dot1 m)

/-- Modelled from the spec: the repository has no `Matrix<T, 4, 4>::determinant`,
but the spec's condition "determinant(m) ≠ 0" needs one; this is the
standard cofactor expansion of the 4×4 determinant along the first row. -/
def det4 {α : Type} [Field α] (m : MatN 4 α) : α :=
  m 0 0 * (m 1 1 * (m 2 2 * m 3 3 - m 3 2 * m 2 3) -
           m 1 2 * (m 2 1 * m 3 3 - m 3 1 * m 2 3) +
           m 1 3 * (m 2 1 * m 3 2 - m 3 1 * m 2 2)) -
  m 0 1 * (m 1 0 * (m 2 2 * m 3 3 - m 3 2 * m 2 3) -
           m 1 2 * (m 2 0 * m 3 3 - m 3 0 * m 2 3) +
           m 1 3 * (m 2 0 * m 3 2 - m 3 0 * m 2 2)) +
  m 0 2 * (m 1 0 * (m 2 1 * m 3 3 - m 3 1 * m 2 3) -
           m 1 1 * (m 2 0 * m 3 3 - m 3 0 * m 2 3) +
           m 1 3 * (m 2 0 * m 3 1 - m 3 0 * m 2 1)) -
  m 0 3 * (m 1 0 * (m 2 1 * m 3 2 - m 3 1 * m 2 2) -
           m 1 1 * (m 2 0 * m 3 2 - m 3 0 * m 2 2) +
           m 1 2 * (m 2 0 * m 3 1 - m 3 0 * m 2 1))

/-- `Matrix<T, 4, 4>::perspective` (`src/math/matrix.rs` lines 315-330):
starting from the all-zero default matrix, the five assigned entries.
Note the source divides by `half_fov = fov_y / two` itself; `tan_delegate`
is never called. -/
def perspective {α : Type} [Field α] (fov_y aspect z_near z_far : α) : MatN 4 α :=
  let one : α := 1
  let two := one + one
  let half_fov := fov_y / two
  ![![one / (aspect * half_fov), 0, 0, 0],
    ![0, one / half_fov, 0, 0],
    ![0, 0, -(z_far + z_near) / (z_far - z_near), -one],
    ![0, 0, -(two * z_far * z_near) / (z_far - z_near), 0]]

/-- Concrete 2×2 matrix with determinant 1, used to witness the inverse law. -/
def wit2 : MatN 2 ℚ := ![![1, 1], ![0, 1]]

/-- Concrete 3×3 matrix with determinant 1, used to witness the inverse law. -/
def wit3 : MatN 3 ℚ := ![![1, 0, 1], ![0, 1, 0], ![0, 0, 1]]

/-- Concrete 4×4 matrix with determinant 1, used to witness the inverse law. -/
def wit4 : MatN 4 ℚ := ![![1, 0, 0, 1], ![0, 1, 0, 0], ![0, 0, 1, 0], ![0, 0, 0, 1]]

/-! ### Dynamically indexed component loops (`component_op` macros)

The `component_op` / `component_op_assign` macros iterate
`for y in 0..HEIGHT { for x in 0..WIDTH { self[x][y] op= rhs } }` over the
row-major `data: [[T; WIDTH]; HEIGHT]`, i.e. they address row `x`,
column `y`.  Rust array indexing panics out of range; here an
out-of-range access makes the whole loop return `none`. -/

/-- Bounds-checked cell read `m[r][c]` of a row-major list-of-rows. -/
def getCell (m : List (List ℚ)) (r c : ℕ) : Option ℚ :=
  match m[r]? with
  | none => none
  | some row => row[c]?

/-- Bounds-checked cell write `m[r][c] = v`. -/
def setCell (m : List (List ℚ)) (r c : ℕ) (v : ℚ) : Option (List (List ℚ)) :=
  match m[r]? with
  | none => none
  | some row =>
    if c < row.length then some (m.set r (row.set c v)) else none

/-- One `self[r][c] op= rhs` update. -/
def cellOpAssign (f : ℚ → ℚ → ℚ) (s : ℚ) (m : List (List ℚ)) (r c : ℕ) :
    Option (List (List ℚ)) :=
  match getCell m r c with
  | none => none
  | some old => setCell m r c (f old s)

/-- The `component_op!` macro body on `Matrix<T, W, H>` (`src/math/matrix.rs`
lines 132-150): `for y in 0..HEIGHT { for x in 0..WIDTH { prod[x][y] op= rhs } }`
— note the transposed indices `prod[x][y]`. -/
def component_op (f : ℚ → ℚ → ℚ) (W H : ℕ) (m : List (List ℚ)) (s : ℚ) :
    Option (List (List ℚ)) :=
  (List.range H).foldlM
    (fun acc y => (List.range W).foldlM (fun acc2 x => cellOpAssign f s acc2 x y) acc) m

/-! ## SDF scene and sphere tracing (`src/main.rs`)

The scene functions divide through `Vector::magnitude`, which needs a
square root, so these are embedded over `ℝ` with `Real.sqrt`.
-/

/-- `Vector::magnitude`: `self.dot(*self).sqrt_delegate()`. -/
noncomputable def magnitudeR (v : Fin 3 → ℝ) : ℝ :=
  Real.sqrt (vdot v v)

/-- `donut_sdf` (`src/main.rs` lines 18-24): torus distance from the planar
radius `r1` and tube radius `r2`. -/
noncomputable def donut_sdf (s : Fin 3 → ℝ) (r1 r2 : ℝ) : ℝ :=
  let y : Fin 3 → ℝ := ![s 0, 0, s 2]
  let q1 := magnitudeR y - r1
  let q2 := s 1
  magnitudeR ![q1, q2, 0] - r2

/-- `scene_sdf` (`src/main.rs` lines 26-29): the donut evaluated on the
swizzled point `[s[0], s[2], s[1]]` with radii `(0.5, 0.1)`. -/
noncomputable def scene_sdf (s : Fin 3 → ℝ) : ℝ :=
  donut_sdf ![s 0, s 2, s 1] 0.5 0.1

/-- `normal_sdf` (`src/main.rs` lines 31-46): the four tetrahedron vectors
`k1..k4`, each scaled by `scene_sdf(k_i + s * e)` with
`e = from_single(0.01)`, and summed.  Note the sample point is
`k_i + 0.01 * s` — the source scales the *point* by the epsilon and adds
it to the offset vector. -/
noncomputable def normal_sdf (s : Fin 3 → ℝ) : Fin 3 → ℝ :=
  let e := from_single 3 (0.01 : ℝ)
  let k1 : Fin 3 → ℝ := ![1, -1, -1]
  let k2 : Fin 3 → ℝ := ![-1, -1, 1]
  let k3 : Fin 3 → ℝ := ![-1, 1, -1]
  let k4 : Fin 3 → ℝ := ![1, 1, 1]
  vadd (vadd (vadd (vsmul k1 (scene_sdf (vadd k1 (vmul s e))))
                   (vsmul k2 (scene_sdf (vadd k2 (vmul s e)))))
             (vsmul k3 (scene_sdf (vadd k3 (vmul s e)))))
       (vsmul k4 (scene_sdf (vadd k4 (vmul s e))))

/-- The normal estimator described by the spec (claim C4): each tetrahedron
offset vector `k_i` weighted by the scene distance at the point `s`
displaced by `k_i` scaled by epsilon 0.01, i.e. `scene_sdf(s + 0.01 * k_i)`,
then summed. -/
noncomputable def normal_sdf_spec (s : Fin 3 → ℝ) : Fin 3 → ℝ :=
  let k1 : Fin 3 → ℝ := ![1, -1, -1]
  let k2 : Fin 3 → ℝ := ![-1, -1, 1]
  let k3 : Fin 3 → ℝ := ![-1, 1, -1]
  let k4 : Fin 3 → ℝ := ![1, 1, 1]
  vadd (vadd (vadd (vsmul k1 (scene_sdf (vadd s (vsmul k1 (0.01 : ℝ)))))
                   (vsmul k2 (scene_sdf (vadd s (vsmul k2 (0.01 : ℝ))))))
             (vsmul k3 (scene_sdf (vadd s (vsmul k3 (0.01 : ℝ))))))
       (vsmul k4 (scene_sdf (vadd s (vsmul k4 (0.01 : ℝ)))))

/-- Outcome of the march loop in `main` (`src/main.rs` lines 94-113):
either the loop broke with `intersect = true` at parameter `t`, or it fell
through the `while t < 10.0` test at parameter `t`. -/
inductive MarchResult : Type
  | hit (t : ℝ) : MarchResult
  | miss (t : ℝ) : MarchResult

/-- Small-step semantics of the march loop, indexed by the number of loop
iterations: at parameter `t` the loop exits as a miss when `¬ t < 10`,
exits as a hit when the scene distance at `origin + direction * t` is below
`0.001`, and otherwise continues from `t` plus that distance. -/
inductive March (origin direction : Fin 3 → ℝ) : ℕ → ℝ → MarchResult → Prop
  | miss (t : ℝ) : ¬ t < 10 → March origin direction 1 t (.miss t)
  | hit (t : ℝ) : t < 10 →
      scene_sdf (vadd origin (vsmul direction t)) < 0.001 →
      March origin direction 1 t (.hit t)
  | step (n : ℕ) (t : ℝ) (res : MarchResult) : t < 10 →
      ¬ scene_sdf (vadd origin (vsmul direction t)) < 0.001 →
      March origin direction n (t + scene_sdf (vadd origin (vsmul direction t))) res →
      March origin direction (n + 1) t res

/-! ## Theorems -/

/-- At `n = 3` the embedded `cross` never panics and agrees with `cross3`. -/
theorem cross_three_eq (a b : Fin 3 → ℚ) : cross a b = .ok (cross3 a b) := by
  simp only [cross, dif_pos rfl]
  rfl

/-- **C8**: for vectors of equal dimension, `(a + b) - b == a` exactly
(componentwise equality, no epsilon), and `(a + b)[i] == a[i] + b[i]`
for every component `i`. -/
theorem add_sub_cancel_and_componentwise {n : ℕ} (a b : Fin n → ℚ) :
    vsub (vadd a b) b = a ∧ ∀ i : Fin n, vadd a b i = a i + b i := by
  constructor
  · funext i
    simp [vadd, vsub]
  · intro i
    rfl

/-- **C10**: `Vector4::new(x, y, z, w)` yields components `[x, y, z, w]`,
while `HiVector4::new(x, y, z, w)` yields `[x, y, w, z]`: the third and
fourth arguments are swapped relative to the argument order. -/
theorem vector4_new_vs_hiVector4_new (x y z w : ℚ) :
    vector4_new x y z w = ![x, y, z, w] ∧
    hiVector4_new x y z w = ![x, y, w, z] :=
  ⟨rfl, rfl⟩

/-- **C7**: `cross` is defined only for `N = 3`, where it equals the
stated determinant formula; for any `N ≠ 3` it terminates fatally with a
diagnostic identifying the offending dimension `N` and never returns a
value. -/
theorem cross_only_dimension_three :
    (∀ a b : Fin 3 → ℚ,
      cross a b =
        .ok ![a 1 * b 2 - a 2 * b 1,
              a 2 * b 0 - a 0 * b 2,
              a 0 * b 1 - a 1 * b 0]) ∧
    (∀ n : ℕ, n ≠ 3 → ∀ a b : Fin n → ℚ,
      cross a b = .error (crossPanicMsg n)) := by
  constructor
  · intro a b
    rw [cross_three_eq]
    rfl
  · intro n hn a b
    simp [cross, hn]

/-- Witness for C7: at the concrete dimension 2 the hypothesis `2 ≠ 3`
holds and `cross` reports the panic message naming dimension 2. -/
theorem cross_only_dimension_three_witness :
    (2 ≠ 3) ∧
      cross (![0, 0] : Fin 2 → ℚ) ![0, 0] = .error (crossPanicMsg 2) :=
  ⟨by decide, cross_only_dimension_three.2 2 (by decide) ![0, 0] ![0, 0]⟩

/-- **C1**: `intersect_triangle` never raises a fatal condition, returns an
absent result exactly when one of the four Möller–Trumbore rejection
conditions holds, and otherwise returns the `(u, v, t)` triple given by the
stated formulas. -/
theorem intersect_triangle_correct (origin direction : Fin 3 → ℚ)
    (tri : (Fin 3 → ℚ) × (Fin 3 → ℚ) × (Fin 3 → ℚ)) :
    intersect_triangle origin direction tri =
      .ok (intersect_triangle_spec origin direction tri) := by
  obtain ⟨p1, p2, p3⟩ := tri
  simp only [intersect_triangle, intersect_triangle_spec, cross_three_eq,
    bind, Except.bind, pure, Except.pure, abs_lt, neg_lt]
  set a := vdot (vsub p2 p1) (cross3 direction (vsub p3 p1)) with ha
  set u := 1 / a * vdot (vsub origin p1) (cross3 direction (vsub p3 p1)) with hu
  set v := 1 / a * vdot direction (cross3 (vsub origin p1) (vsub p2 p1)) with hv
  set t := 1 / a * vdot (vsub p3 p1) (cross3 (vsub origin p1) (vsub p2 p1)) with ht
  by_cases hpar : a > -EPSILON ∧ a < EPSILON
  · simp [hpar, hpar.1, hpar.2, neg_lt.mp hpar.1]
  · rw [if_neg hpar]
    have hpar' : ¬ (-EPSILON < a ∧ a < EPSILON) := by
      intro hc
      exact hpar ⟨by linarith [hc.1], hc.2⟩
    by_cases hu1 : u < 0 ∨ u > 1
    · simp [hu1, hpar']
    · rw [if_neg hu1]
      by_cases hv1 : v < 0 ∨ u + v > 1
      · simp [hv1, hpar', hu1]
      · rw [if_neg hv1]
        by_cases htt : t > EPSILON
        · have : ¬ t ≤ EPSILON := not_le.mpr htt
          simp [htt, hpar', hu1, hv1, this]
        · have : t ≤ EPSILON := not_lt.mp htt
          simp [htt, hpar', hu1, hv1, this]

/-- Translating both endpoints of a difference leaves it unchanged. -/
theorem vsub_vadd_vadd {n : ℕ} (a b d : Fin n → ℚ) :
    vsub (vadd a d) (vadd b d) = vsub a b := by
  funext i
  simp [vsub, vadd]

/-- **C9**: ray–triangle intersection is translation invariant — shifting
the ray origin and all three vertices by the same offset yields the same
result — and in particular the ray `(0,0,-1) → (0,0,1)` against the
standard test triangle, translated by `(10,10,0)` on origin and vertices,
still hits with `(u, v, t) = (1/4, 1/2, 1)`. -/
theorem intersect_triangle_translation_invariant :
    (∀ origin direction p1 p2 p3 d : Fin 3 → ℚ,
      intersect_triangle (vadd origin d) direction
          (vadd p1 d, vadd p2 d, vadd p3 d) =
        intersect_triangle origin direction (p1, p2, p3)) ∧
    intersect_triangle (vadd ![0, 0, -1] ![10, 10, 0]) ![0, 0, 1]
        (vadd ![-(1/2), -(1/2), 0] ![10, 10, 0],
         vadd ![1/2, -(1/2), 0] ![10, 10, 0],
         vadd ![0, 1/2, 0] ![10, 10, 0]) =
      .ok (some (1/4, 1/2, 1)) := by
  constructor
  · intro origin direction p1 p2 p3 d
    simp only [intersect_triangle, vsub_vadd_vadd]
  · rw [show (intersect_triangle (vadd ![0, 0, -1] ![10, 10, 0]) ![0, 0, 1]
        (vadd ![-(1/2), -(1/2), 0] ![10, 10, 0],
         vadd ![1/2, -(1/2), 0] ![10, 10, 0],
         vadd ![0, 1/2, 0] ![10, 10, 0])) =
        intersect_triangle ![0, 0, -1] ![0, 0, 1]
          (![-(1/2), -(1/2), 0], ![1/2, -(1/2), 0], ![0, 1/2, 0]) from by
      simp only [intersect_triangle, vsub_vadd_vadd]]
    rw [intersect_triangle_correct]
    simp only [intersect_triangle_spec]
    norm_num [vdot, vsub, cross3, EPSILON, Fin.sum_univ_three,
      Matrix.cons_val_zero, Matrix.cons_val_one, Matrix.head_cons,
      Matrix.cons_val_two, Matrix.tail_cons]

/-- **C3** (code bug): on the 3-row × 2-column matrix `[[1,2],[3,4],[5,6]]`
(`WIDTH = 2`, `HEIGHT = 3`) the scalar addition loop addresses
`self[0][2]` — column 2 of a width-2 row — so the operation aborts on an
out-of-range index instead of returning the broadcast result
`[[2,3],[4,5],[6,7]]` that the claim promises. -/
theorem component_op_add_2x3_out_of_range :
    component_op (fun a b => a + b) 2 3 [[1, 2], [3, 4], [5, 6]] 1 = none := by
  rfl

/-- **C2** (code bug): at `fovY = 2`, `aspect = 1`, `zNear = 1`, `zFar = 2`
the `[0][0]` entry produced by `perspective` is `1/(aspect·(fovY/2)) = 1`,
not the claimed `1/(aspect·tan(fovY/2)) = 1/tan 1`: the source divides by
`fov_y / two` directly and never calls `tan_delegate`, although the
`Component` trait documents `TanDelegate` as existing for
`Matrix4x4::perspective()`. -/
theorem perspective_omits_tangent :
    perspective (α := ℝ) 2 1 1 2 0 0 ≠ 1 / (1 * Real.tan (2 / 2)) := by
  have h1 : perspective (α := ℝ) 2 1 1 2 0 0 = 1 := by
    norm_num [perspective]
  rw [h1]
  have hpi : (1 : ℝ) < Real.pi / 2 := by
    linarith [Real.pi_gt_three]
  have htan : (1 : ℝ) < Real.tan 1 := Real.lt_tan one_pos hpi
  have hlt : 1 / (1 * Real.tan (2 / 2)) < 1 := by
    rw [show (2 : ℝ) / 2 = 1 by norm_num, one_mul]
    rw [div_lt_one (lt_trans one_pos htan)]
    exact htan
  exact ne_of_gt hlt

/-- `identity() * m == m` for any square matrix. -/
theorem mmul_midentity {n : ℕ} (m : MatN n ℚ) : mmul (midentity n) m = m := by
  funext y x
  simp [mmul, midentity, Finset.sum_ite_eq, Finset.mem_univ]

/-- `m * inverse(m) == identity()` for 2×2 matrices with nonzero determinant. -/
theorem inverse2_correct (m : MatN 2 ℚ) (h : det2 m ≠ 0) :
    mmul m (inverse2 m) = midentity 2 := by
  have h' : m 0 0 * m 1 1 - m 0 1 * m 1 0 ≠ 0 := h
  funext y x
  fin_cases y <;> fin_cases x <;>
    · simp [mmul, inverse2, msmul, midentity, det2, Fin.sum_univ_two]
      field_simp
      ring

/-- `m * inverse(m) == identity()` for 3×3 matrices with nonzero determinant. -/
theorem inverse3_correct (m : MatN 3 ℚ) (h : det3 m ≠ 0) :
    mmul m (inverse3 m) = midentity 3 := by
  have h' : m 0 0 * (m 1 1 * m 2 2 - m 2 1 * m 1 2) -
      m 1 0 * (m 0 1 * m 2 2 - m 2 1 * m 0 2) +
      m 2 0 * (m 0 1 * m 1 2 - m 1 1 * m 0 2) ≠ 0 := h
  funext y x
  fin_cases y <;> fin_cases x <;>
    · simp [mmul, inverse3, midentity, det3, Fin.sum_univ_three]
      field_simp
      ring

set_option maxHeartbeats 4000000 in
/-- The normalisation scalar computed inside the 4×4 inverse is exactly the
4×4 determinant. -/
theorem inv4_dot1_eq_det4 (m : MatN 4 ℚ) : inv4_dot1 m = det4 m := by
  simp [inv4_dot1, inv4_core, det4, vmul, vadd, vsub, vneg]
  ring

set_option maxHeartbeats 4000000 in
/-- `m * inverse(m) == identity()` for 4×4 matrices with nonzero determinant. -/
theorem inverse4_correct (m : MatN 4 ℚ) (h : det4 m ≠ 0) :
    mmul m (inverse4 m) = midentity 4 := by
  have hd : inv4_dot1 m ≠ 0 := by
    rw [inv4_dot1_eq_det4]
    exact h
  funext y x
  fin_cases y <;> fin_cases x <;>
    · simp only [mmul, inverse4, msmul, midentity, Fin.sum_univ_four]
      rw [inv4_dot1_eq_det4] at hd ⊢
      simp [inv4_core, vmul, vadd, vsub, vneg, det4] at hd ⊢
      field_simp
      ring

/-- **C6**: `identity() * m == m` for every compatible square matrix, and
`m * inverse(m) == identity()` exactly (over exact arithmetic) for every
2×2, 3×3 and 4×4 matrix with nonzero determinant. -/
theorem identity_and_inverse_laws :
    (∀ (n : ℕ) (m : MatN n ℚ), mmul (midentity n) m = m) ∧
    (∀ m : MatN 2 ℚ, det2 m ≠ 0 → mmul m (inverse2 m) = midentity 2) ∧
    (∀ m : MatN 3 ℚ, det3 m ≠ 0 → mmul m (inverse3 m) = midentity 3) ∧
    (∀ m : MatN 4 ℚ, det4 m ≠ 0 → mmul m (inverse4 m) = midentity 4) :=
  ⟨fun _ m => mmul_midentity m, inverse2_correct, inverse3_correct, inverse4_correct⟩

/-- Witness for C6: concrete invertible matrices of each size with
determinant visibly nonzero, and the inverse law instantiated on them. -/
theorem identity_and_inverse_laws_witness :
    (det2 wit2 ≠ 0 ∧ mmul wit2 (inverse2 wit2) = midentity 2) ∧
    (det3 wit3 ≠ 0 ∧ mmul wit3 (inverse3 wit3) = midentity 3) ∧
    (det4 wit4 ≠ 0 ∧ mmul wit4 (inverse4 wit4) = midentity 4) := by
  have h2 : det2 wit2 ≠ 0 := by
    norm_num [det2, wit2, Matrix.vecHead, Matrix.vecTail]
  have h3 : det3 wit3 ≠ 0 := by
    norm_num [det3, wit3, Matrix.vecHead, Matrix.vecTail]
  have h4 : det4 wit4 ≠ 0 := by
    norm_num [det4, wit4, Matrix.vecHead, Matrix.vecTail]
  exact ⟨⟨h2, identity_and_inverse_laws.2.1 wit2 h2⟩,
    ⟨h3, identity_and_inverse_laws.2.2.1 wit3 h3⟩,
    ⟨h4, identity_and_inverse_laws.2.2.2 wit4 h4⟩⟩

/-- Closed form of `scene_sdf`: the torus distance
`√((√(s₀² + s₁²) − 0.5)² + s₂²) − 0.1` after the swizzles. -/
theorem scene_sdf_eq (s : Fin 3 → ℝ) :
    scene_sdf s =
      Real.sqrt ((Real.sqrt (s 0 * s 0 + s 1 * s 1) - 0.5) ^ 2 + s 2 * s 2) - 0.1 := by
  simp only [scene_sdf, donut_sdf, magnitudeR, vdot, Fin.sum_univ_three,
    Matrix.cons_val_zero, Matrix.cons_val_one, Matrix.head_cons,
    Matrix.cons_val_two, Matrix.tail_cons]
  norm_num
  ring_nf

/-- Value of the z-component of `normal_sdf` at the point `(0, 0, 100)`:
the four samples sit at `k_i + (0, 0, 1)`. -/
theorem normal_sdf_at_point :
    normal_sdf ![0, 0, 100] 2 =
      2 * Real.sqrt ((Real.sqrt 2 - 0.5) ^ 2 + 4) -
        2 * Real.sqrt ((Real.sqrt 2 - 0.5) ^ 2) := by
  simp only [normal_sdf, vadd, vmul, vsmul, from_single, scene_sdf_eq]
  norm_num [Matrix.cons_val_zero, Matrix.cons_val_one, Matrix.head_cons,
    Matrix.cons_val_two, Matrix.tail_cons]
  ring_nf

/-- Value of the z-component of the spec's estimator at `(0, 0, 100)`:
the four samples sit at `(±0.01, ±0.01, 100 ∓ 0.01)`. -/
theorem normal_sdf_spec_at_point :
    normal_sdf_spec ![0, 0, 100] 2 =
      2 * Real.sqrt ((Real.sqrt (1/5000) - 0.5) ^ 2 + (10001/100) ^ 2) -
        2 * Real.sqrt ((Real.sqrt (1/5000) - 0.5) ^ 2 + (9999/100) ^ 2) := by
  simp only [normal_sdf_spec, vadd, vmul, vsmul, from_single, scene_sdf_eq]
  norm_num [Matrix.cons_val_zero, Matrix.cons_val_one, Matrix.head_cons,
    Matrix.cons_val_two, Matrix.tail_cons]
  ring_nf

/-- The code's z-component at `(0, 0, 100)` exceeds 2. -/
theorem normal_lhs_gt_two :
    2 < 2 * Real.sqrt ((Real.sqrt 2 - 0.5) ^ 2 + 4) -
          2 * Real.sqrt ((Real.sqrt 2 - 0.5) ^ 2) := by
  have h2 : Real.sqrt 2 < 2 := by
    rw [Real.sqrt_lt' (by norm_num)]
    norm_num
  have h1 : (1 : ℝ) ≤ Real.sqrt 2 := (Real.le_sqrt' one_pos).mpr (by norm_num)
  have hs : Real.sqrt ((Real.sqrt 2 - 0.5) ^ 2) = Real.sqrt 2 - 0.5 :=
    Real.sqrt_sq (by linarith)
  have key : Real.sqrt 2 + 0.5 < Real.sqrt ((Real.sqrt 2 - 0.5) ^ 2 + 4) :=
    Real.lt_sqrt_of_sq_lt
      (by nlinarith [Real.sq_sqrt (show (0:ℝ) ≤ 2 by norm_num)])
  linarith [key, hs]

/-- The spec's z-component at `(0, 0, 100)` stays below 2. -/
theorem normal_rhs_lt_two :
    2 * Real.sqrt ((Real.sqrt (1/5000) - 0.5) ^ 2 + (10001/100) ^ 2) -
        2 * Real.sqrt ((Real.sqrt (1/5000) - 0.5) ^ 2 + (9999/100) ^ 2) < 2 := by
  set B := (Real.sqrt (1/5000) - 0.5) ^ 2 with hBdef
  have hB : 0 ≤ B := sq_nonneg _
  have hc1 : (9999/100 : ℝ) ≤ Real.sqrt (B + (9999/100) ^ 2) := by
    calc (9999/100 : ℝ) = Real.sqrt ((9999/100) ^ 2) :=
          (Real.sqrt_sq (by norm_num)).symm
    _ ≤ Real.sqrt (B + (9999/100) ^ 2) := Real.sqrt_le_sqrt (by linarith)
  have hkey : Real.sqrt (B + (10001/100) ^ 2) < Real.sqrt (B + (9999/100) ^ 2) + 1 := by
    rw [Real.sqrt_lt' (by positivity)]
    have hsq : (Real.sqrt (B + (9999/100) ^ 2)) ^ 2 = B + (9999/100) ^ 2 :=
      Real.sq_sqrt (by positivity)
    nlinarith [hc1, hsq]
  linarith

/-- **C4** (code bug): at the point `p = (0, 0, 100)` the value computed by
`normal_sdf` differs from the estimator the claim describes.  The source
samples the scene at `k_i + 0.01 * p` — the epsilon scales the point and is
added to the tetrahedron offset — instead of the claimed `p + 0.01 * k_i`. -/
theorem normal_sdf_deviates_from_spec :
    normal_sdf ![0, 0, 100] ≠ normal_sdf_spec ![0, 0, 100] := by
  intro h
  have h2 := congrFun h 2
  rw [normal_sdf_at_point, normal_sdf_spec_at_point] at h2
  linarith [normal_lhs_gt_two, normal_rhs_lt_two]

/-- Every run of the march loop that still has `10 ≤ t + 0.001 * n` of
budget slack finishes within `n + 1` iterations: each non-exit iteration
advances `t` by a scene distance that the hit test has just bounded below
by `0.001`. -/
theorem march_bounded (o d : Fin 3 → ℝ) :
    ∀ (n : ℕ) (t : ℝ), 10 ≤ t + 0.001 * n →
      ∃ (k : ℕ) (res : MarchResult), k ≤ n + 1 ∧ March o d k t res ∧
        (∀ t', res = .hit t' → scene_sdf (vadd o (vsmul d t')) < 0.001) ∧
        (∀ t', res = .miss t' → 10 ≤ t') := by
  intro n
  induction n with
  | zero =>
    intro t ht
    norm_num at ht
    refine ⟨1, .miss t, le_refl 1, March.miss t (not_lt.mpr ht), ?_, ?_⟩
    · intro t' hh
      cases hh
    · intro t' hm
      cases hm
      exact ht
  | succ n ih =>
    intro t ht
    by_cases hlt : t < 10
    · by_cases hhit : scene_sdf (vadd o (vsmul d t)) < 0.001
      · refine ⟨1, .hit t, by omega, March.hit t hlt hhit, ?_, ?_⟩
        · intro t' hh
          cases hh
          exact hhit
        · intro t' hm
          cases hm
      · have hr : (0.001 : ℝ) ≤ scene_sdf (vadd o (vsmul d t)) := not_lt.mp hhit
        obtain ⟨k, res, hk, hm, hgood⟩ :=
          ih (t + scene_sdf (vadd o (vsmul d t))) (by push_cast at ht ⊢; linarith)
        exact ⟨k + 1, res, by omega, March.step k t res hlt hhit hm, hgood⟩
    · refine ⟨1, .miss t, by omega, March.miss t hlt, ?_, ?_⟩
      · intro t' hh
        cases hh
      · intro t' hm
        cases hm
        exact not_lt.mp hlt

/-- **C5**: for every origin and direction, the march loop started at
`t = 0` terminates within a bounded number of iterations (at most 10001):
it reports a hit only at a parameter whose scene distance is below `0.001`,
and a miss only once `t` is no longer below the `10.0` travel budget. -/
theorem march_loop_terminates (origin direction : Fin 3 → ℝ) :
    ∃ (n : ℕ) (res : MarchResult), n ≤ 10001 ∧
      March origin direction n 0 res ∧
      (∀ t, res = .hit t → scene_sdf (vadd origin (vsmul direction t)) < 0.001) ∧
      (∀ t, res = .miss t → 10 ≤ t) := by
  obtain ⟨k, res, hk, hm, hgood⟩ :=
    march_bounded origin direction 10000 0 (by norm_num)
  exact ⟨k, res, by omega, hm, hgood⟩

end Prism
